import Mathlib

/-!
Verification of the `llm_cache` repository: request fingerprinting
(`llm_cache/hasher.py`), the SQLite-backed cache store
(`llm_cache/cache.py`), and the caching proxy handler
(`llm_cache/proxy.py`), shallowly embedded in Lean.

Python JSON values are modelled by the inductive type `JVal`
(Python `None` is `JVal.null`).  SQLite rows are modelled as a list of
records kept in rowid order (an `INSERT OR REPLACE` deletes the old row
and appends a fresh one, and index scans such as
`ORDER BY last_accessed` enumerate equal keys in rowid order, which a
stable sort reproduces).  Wall-clock time (`time.time()`) is passed
explicitly to every operation as an integer timestamp.
-/

namespace LlmCache

/-- Model of a Python/JSON value (`json` module data). `null` doubles as
Python `None`, which is what `json.dumps` serializes as `null`. -/
inductive JVal where
  | null : JVal
  | bool (b : Bool) : JVal
  | num (n : Int) : JVal
  | str (s : String) : JVal
  | arr (xs : List JVal) : JVal
  | obj (fields : List (String × JVal)) : JVal

/-- Python `x is None` on a JSON value. -/
def JVal.isNull : JVal → Bool
  | JVal.null => true
  | _ => false

/-- A Python dict, as the `json` module produces it: an association list
of string keys and values (keys unique in any dict that Python builds). -/
abbrev PyDict := List (String × JVal)

/-- First-match association lookup: Python `d.get(k)` returning `None`
absence as `Option.none`. -/
def jget (d : PyDict) (k : String) : Option JVal :=
  (d.find? (fun p => p.1 == k)).map (·.2)

/-- Python truthiness (`if x:`) restricted to JSON values. -/
def jtruthy : JVal → Bool
  | JVal.null => false
  | JVal.bool b => b
  | JVal.num n => n != 0
  | JVal.str s => s != ""
  | JVal.arr xs => !xs.isEmpty
  | JVal.obj fs => !fs.isEmpty

/-- Key order used by `json.dumps(..., sort_keys=True)` and by
`sorted(kwargs.items())` (keys are unique in a dict, so the tuple
comparison never reaches the values). -/
def keyLE (a b : String × JVal) : Prop := a.1 ≤ b.1

instance : DecidableRel keyLE := fun a b =>
  inferInstanceAs (Decidable (a.1 ≤ b.1))

instance : IsTotal (String × JVal) keyLE :=
  ⟨fun a b => le_total a.1 b.1⟩

instance : IsTrans (String × JVal) keyLE :=
  ⟨fun _ _ _ h1 h2 => le_trans h1 h2⟩

/-- Strict key order, used only in proofs. -/
def keyLT (a b : String × JVal) : Prop := a.1 < b.1

instance : IsAntisymm (String × JVal) keyLT :=
  ⟨fun _ _ h1 h2 => absurd (lt_trans h1 h2) (lt_irrefl _)⟩

/-- Sort an association list by key (stable). -/
def sortPairs (l : PyDict) : PyDict :=
  List.insertionSort keyLE l

/-- Hexadecimal digit (lower case), as Python produces. -/
def hexDigit (n : Nat) : Char :=
  if n < 10 then Char.ofNat (48 + n) else Char.ofNat (87 + n)

/-- Fixed-width lower-case hexadecimal rendering, most significant first. -/
def toHex : Nat → Nat → String
  | 0, _ => ""
  | w + 1, x => toHex w (x / 16) ++ String.singleton (hexDigit (x % 16))

/-- JSON escaping of one character as `json.dumps` (default
`ensure_ascii=True`) performs it: two-character escapes for quote,
backslash and common control characters, `\uXXXX` for other control
characters and for all non-ASCII characters (surrogate pairs beyond the
basic plane). -/
def escapeChar (c : Char) : String :=
  let n := c.toNat
  if c = '"' then "\\\""
  else if c = '\\' then "\\\\"
  else if n = 8 then "\\b"
  else if n = 9 then "\\t"
  else if n = 10 then "\\n"
  else if n = 12 then "\\f"
  else if n = 13 then "\\r"
  else if n < 32 then "\\u" ++ toHex 4 n
  else if n < 127 then String.singleton c
  else if n < 65536 then "\\u" ++ toHex 4 n
  else
    "\\u" ++ toHex 4 (55296 + (n - 65536) / 1024) ++
      "\\u" ++ toHex 4 (56320 + (n - 65536) % 1024)

/-- JSON string literal rendering. -/
def renderString (s : String) : String :=
  "\"" ++ String.join (s.data.map escapeChar) ++ "\""

/-- Canonical serialization: `json.dumps(v, sort_keys=True,
separators=(",", ":"))` — compact separators, object keys sorted. -/
def serialize : JVal → String
  | JVal.null => "null"
  | JVal.bool b => if b then "true" else "false"
  | JVal.num n => toString n
  | JVal.str s => renderString s
  | JVal.arr xs =>
    "[" ++ String.intercalate ","
      (xs.attach.map (fun x => serialize x.1)) ++ "]"
  | JVal.obj fs =>
    "\x7b" ++ String.intercalate ","
      ((sortPairs fs).attach.map
        (fun p => renderString p.1.1 ++ ":" ++ serialize p.1.2)) ++ "\x7d"
decreasing_by
  · have := List.sizeOf_lt_of_mem x.2
    simp only [JVal.arr.sizeOf_spec]
    omega
  · have hmem : p.1 ∈ fs := (List.perm_insertionSort keyLE fs).subset p.2
    have h1 := List.sizeOf_lt_of_mem hmem
    have h2 : sizeOf p.1.2 < sizeOf p.1 := by
      obtain ⟨a, b⟩ := p.1
      simp only [Prod.mk.sizeOf_spec]
      omega
    simp only [JVal.obj.sizeOf_spec]
    omega

/-! ### SHA-256 (`hashlib.sha256(...).hexdigest()`)
Words are `Nat`s reduced modulo `2 ^ 32` wherever overflow matters. -/

/-- 32-bit right rotation. -/
def rotr (n x : Nat) : Nat :=
  ((x >>> n) ||| (x <<< (32 - n))) % 4294967296

/-- SHA-256 round constants (the fractional parts of the cube roots of
the first 64 primes, here as decimal 32-bit words). -/
def shaK : List Nat :=
  [1116352408, 1899447441, 3049323471, 3921009573, 961987163, 1508970993,
   2453635748, 2870763221, 3624381080, 310598401, 607225278, 1426881987,
   1925078388, 2162078206, 2614888103, 3248222580, 3835390401, 4022224774,
   264347078, 604807628, 770255983, 1249150122, 1555081692, 1996064986,
   2554220882, 2821834349, 2952996808, 3210313671, 3336571891, 3584528711,
   113926993, 338241895, 666307205, 773529912, 1294757372, 1396182291,
   1695183700, 1986661051, 2177026350, 2456956037, 2730485921, 2820302411,
   3259730800, 3345764771, 3516065817, 3600352804, 4094571909, 275423344,
   430227734, 506948616, 659060556, 883997877, 958139571, 1322822218,
   1537002063, 1747873779, 1955562222, 2024104815, 2227730452, 2361852424,
   2428436474, 2756734187, 3204031479, 3329325298]

/-- SHA-256 initial hash state (fractional parts of the square roots of
the first 8 primes, as decimal 32-bit words). -/
def shaH0 : List Nat :=
  [1779033703, 3144134277, 1013904242, 2773480762,
   1359893119, 2600822924, 528734635, 1541459225]

/-- Big-endian byte rendering of a number, fixed width. -/
def toBytesBE : Nat → Nat → List Nat
  | 0, _ => []
  | w + 1, x => toBytesBE w (x / 256) ++ [x % 256]

/-- SHA-256 message padding: `0x80`, zeros to 56 mod 64, then the
64-bit big-endian bit length. -/
def shaPad (msg : List Nat) : List Nat :=
  let padZeros := (119 - msg.length % 64) % 64
  msg ++ [0x80] ++ List.replicate padZeros 0 ++ toBytesBE 8 (msg.length * 8)

/-- Split a byte list into 64-byte chunks. -/
def toChunks : List Nat → List (List Nat)
  | [] => []
  | x :: xs => ((x :: xs).take 64) :: toChunks ((x :: xs).drop 64)
termination_by l => l.length
decreasing_by
  simp only [List.length_drop, List.length_cons]
  omega

/-- Message schedule: the 16 chunk words extended to 64. -/
def shaSchedule (chunk : List Nat) : Array Nat :=
  let w0 : Array Nat := (List.range 16).toArray.map (fun i =>
    chunk.getD (4 * i) 0 * 16777216 + chunk.getD (4 * i + 1) 0 * 65536 +
      chunk.getD (4 * i + 2) 0 * 256 + chunk.getD (4 * i + 3) 0)
  (List.range 48).foldl (fun w j =>
    let i := j + 16
    let s0 := rotr 7 (w.getD (i - 15) 0) ^^^ rotr 18 (w.getD (i - 15) 0) ^^^
      (w.getD (i - 15) 0 >>> 3)
    let s1 := rotr 17 (w.getD (i - 2) 0) ^^^ rotr 19 (w.getD (i - 2) 0) ^^^
      (w.getD (i - 2) 0 >>> 10)
    w.push ((w.getD (i - 16) 0 + s0 + w.getD (i - 7) 0 + s1) % 4294967296)) w0

/-- One SHA-256 compression round over the state `(a, b, c, d, e, f, g, h)`. -/
def shaRound (w : Array Nat) (st : List Nat) (i : Nat) : List Nat :=
  match st with
  | [a, b, c, d, e, f, g, h] =>
    let S1 := rotr 6 e ^^^ rotr 11 e ^^^ rotr 25 e
    let ch := (e &&& f) ^^^ ((e ^^^ 4294967295) &&& g)
    let temp1 := (h + S1 + ch + shaK.getD i 0 + w.getD i 0) % 4294967296
    let S0 := rotr 2 a ^^^ rotr 13 a ^^^ rotr 22 a
    let maj := (a &&& b) ^^^ (a &&& c) ^^^ (b &&& c)
    let temp2 := (S0 + maj) % 4294967296
    [(temp1 + temp2) % 4294967296, a, b, c, (d + temp1) % 4294967296, e, f, g]
  | other => other

/-- Compress one 64-byte chunk into the running hash state. -/
def shaCompress (hs : List Nat) (chunk : List Nat) : List Nat :=
  let w := shaSchedule chunk
  let st := (List.range 64).foldl (shaRound w) hs
  (hs.zip st).map (fun p => (p.1 + p.2) % 4294967296)

/-- SHA-256 hex digest of a byte sequence. -/
def sha256Bytes (msg : List Nat) : String :=
  let final := (toChunks (shaPad msg)).foldl shaCompress shaH0
  String.join (final.map (toHex 8))

/-- SHA-256 hex digest of a string's UTF-8 encoding
(`hashlib.sha256(s.encode()).hexdigest()`). -/
def sha256hex (s : String) : String :=
  sha256Bytes (s.toUTF8.toList.map (fun b => b.toNat))

/-! ### `llm_cache/hasher.py` -/

/-- One message, as received from JSON: a Python dict. -/
abbrev Msg := PyDict

/-- `normalize_messages`: keep `role` and `content` (defaulting to `""`),
then `name`, `tool_calls`, `tool_call_id` when present. -/
def normalize_messages (messages : List Msg) : List JVal :=
  messages.map (fun msg =>
    let norm : PyDict :=
      [("role", (jget msg "role").getD (JVal.str "")),
       ("content", (jget msg "content").getD (JVal.str ""))]
    let norm := match jget msg "name" with
      | some v => norm ++ [("name", v)]
      | none => norm
    let norm := match jget msg "tool_calls" with
      | some v => norm ++ [("tool_calls", v)]
      | none => norm
    let norm := match jget msg "tool_call_id" with
      | some v => norm ++ [("tool_call_id", v)]
      | none => norm
    JVal.obj norm)

/-- `hash_request`: canonical request dict (omitting `None`-valued
optional parameters, omitting falsy `tools`, appending the non-`None`
`kwargs` sorted by name), serialized with sorted keys and compact
separators, then SHA-256-hex digested.  A parameter that the Python
caller does not supply defaults to `None`, i.e. `JVal.null` here. -/
def hash_request (messages : List Msg) (model : String)
    (temperature : JVal := JVal.null) (max_tokens : JVal := JVal.null)
    (tools : JVal := JVal.null) (kwargs : PyDict := []) : String :=
  let request_data : PyDict :=
    [("messages", JVal.arr (normalize_messages messages)),
     ("model", JVal.str model)]
  let request_data :=
    if temperature.isNull then request_data
    else request_data ++ [("temperature", temperature)]
  let request_data :=
    if max_tokens.isNull then request_data
    else request_data ++ [("max_tokens", max_tokens)]
  let request_data :=
    if jtruthy tools then request_data ++ [("tools", tools)]
    else request_data
  let request_data :=
    request_data ++ (sortPairs kwargs).filter (fun kv => !kv.2.isNull)
  sha256hex (serialize (JVal.obj request_data))

/-- `hash_completion_request`: the single-prompt variant. -/
def hash_completion_request (prompt : String) (model : String)
    (temperature : JVal := JVal.null) (max_tokens : JVal := JVal.null)
    (kwargs : PyDict := []) : String :=
  let request_data : PyDict :=
    [("prompt", JVal.str prompt), ("model", JVal.str model)]
  let request_data :=
    if temperature.isNull then request_data
    else request_data ++ [("temperature", temperature)]
  let request_data :=
    if max_tokens.isNull then request_data
    else request_data ++ [("max_tokens", max_tokens)]
  let request_data :=
    request_data ++ (sortPairs kwargs).filter (fun kv => !kv.2.isNull)
  sha256hex (serialize (JVal.obj request_data))

/-! ### `llm_cache/cache.py`

One row of the `cache` table.  The stored `response TEXT` column holds
`json.dumps(response)` and `get` returns `json.loads` of it; since
`json.loads(json.dumps(v))` equals `v` for every JSON-representable
value, the row carries the structured value directly. -/

/-- A row of the `cache` table (the schema in `_init_db`). -/
structure CacheEntry where
  key : String
  response : JVal
  model : String
  created_at : Int
  expires_at : Option Int
  hit_count : Nat
  last_accessed : Int

/-- The persistent state of one cache database: the `cache` rows in
rowid order plus the two `stats` counters. -/
structure CacheState where
  entries : List CacheEntry
  hits : Nat
  misses : Nat

/-- Constructor arguments of `Cache.__init__` that the operations read. -/
structure CacheConfig where
  ttl_seconds : Option Int
  max_entries : Option Nat

/-- `SELECT ... FROM cache WHERE key = ?` (key is the primary key). -/
def findEntry (entries : List CacheEntry) (key : String) : Option CacheEntry :=
  entries.find? (fun e => e.key == key)

/-- `DELETE FROM cache WHERE key = ?`. -/
def eraseEntry (entries : List CacheEntry) (key : String) : List CacheEntry :=
  entries.filter (fun e => e.key != key)

/-- `UPDATE cache SET hit_count = hit_count + 1, last_accessed = ?
WHERE key = ?`. -/
def touchEntry (entries : List CacheEntry) (key : String) (now : Int) :
    List CacheEntry :=
  entries.map (fun e =>
    if e.key == key then
      { e with hit_count := e.hit_count + 1, last_accessed := now }
    else e)

/-- The expiry test of `Cache.get`:
`expires_at is not None and expires_at < now`. -/
def isExpired (e : CacheEntry) (now : Int) : Bool :=
  match e.expires_at with
  | some exp => exp < now
  | none => false

/-- `Cache.get`: returns the cached value (or `none`) together with the
state after the call's side effects. -/
def cacheGet (s : CacheState) (now : Int) (key : String) :
    Option JVal × CacheState :=
  match findEntry s.entries key with
  | none => (none, { s with misses := s.misses + 1 })
  | some e =>
    if isExpired e now then
      (none, { s with entries := eraseEntry s.entries key,
                      misses := s.misses + 1 })
    else
      (some e.response,
        { s with entries := touchEntry s.entries key now,
                 hits := s.hits + 1 })

/-- Eviction order `ORDER BY last_accessed ASC`: SQLite scans the
`idx_last_accessed` index, which orders equal timestamps by rowid, so a
stable sort of the rowid-ordered row list reproduces it. -/
def laLE (a b : CacheEntry) : Prop := a.last_accessed ≤ b.last_accessed

instance : DecidableRel laLE := fun a b =>
  inferInstanceAs (Decidable (a.last_accessed ≤ b.last_accessed))

instance : IsTotal CacheEntry laLE := ⟨fun _ _ => le_total _ _⟩

instance : IsTrans CacheEntry laLE := ⟨fun _ _ _ h1 h2 => le_trans h1 h2⟩

/-- Rows sorted by ascending `last_accessed` (ties in rowid order). -/
def sortByLA (entries : List CacheEntry) : List CacheEntry :=
  List.insertionSort laLE entries

/-- `Cache._evict_lru` for a store whose `max_entries` is `m`: when
`count > m`, delete the `count - m` keys that come first in ascending
`last_accessed` order. -/
def evictLRU (m : Nat) (s : CacheState) : CacheState :=
  let count := s.entries.length
  if count > m then
    let to_delete := count - m
    let victims := ((sortByLA s.entries).take to_delete).map (·.key)
    { s with entries := s.entries.filter (fun e => !(decide (e.key ∈ victims))) }
  else s

/-- `ttl = ttl_seconds if ttl_seconds is not None else self.ttl_seconds`. -/
def effectiveTTL (cfg : CacheConfig) (ttl_override : Option Int) : Option Int :=
  match ttl_override with
  | some t => some t
  | none => cfg.ttl_seconds

/-- The `INSERT OR REPLACE` of `Cache.set`: the conflicting row (if any)
is deleted and a fresh row is appended with a fresh rowid. -/
def insertEntry (cfg : CacheConfig) (s : CacheState) (now : Int) (key : String)
    (response : JVal) (model : String) (ttl_override : Option Int) :
    CacheState :=
  let expires_at := (effectiveTTL cfg ttl_override).map (fun t => now + t)
  { s with entries := eraseEntry s.entries key ++
      [⟨key, response, model, now, expires_at, 0, now⟩] }

/-- `Cache.set`: insert-or-replace, then `if self.max_entries:
self._evict_lru()` — note the truthiness test, under which a configured
`max_entries` of `0` never triggers eviction. -/
def cacheSet (cfg : CacheConfig) (s : CacheState) (now : Int) (key : String)
    (response : JVal) (model : String) (ttl_override : Option Int := none) :
    CacheState :=
  let s1 := insertEntry cfg s now key response model ttl_override
  match cfg.max_entries with
  | none => s1
  | some 0 => s1
  | some m => evictLRU m s1

/-- `Cache.clear`: delete rows older than the cutoff (or all rows), and
unconditionally `UPDATE stats SET value = 0`. -/
def cacheClear (s : CacheState) (now : Int)
    (older_than_days : Option Int := none) : CacheState :=
  let entries := match older_than_days with
    | some d => s.entries.filter (fun e => !(decide (e.created_at < now - d * 86400)))
    | none => ([] : List CacheEntry)
  { entries := entries, hits := 0, misses := 0 }

/-! ### `llm_cache/proxy.py`

`CacheProxy._handle_chat_completion` is modelled as a function of the
parsed JSON payload, the cache state, the current time, and the outcome
of the external transport (`requests.post`), which is an input because
the upstream service is outside the program.  The returned event trace
records each fingerprinting, cache read, and cache write the handler
performs.  An unhandled Python exception inside the handler is an
explicit `raised` outcome (Flask converts it into a generic 500
Internal Server Error outside the modelled code); the store state and
event trace it carries are the side effects already committed to SQLite
before the raise. -/

/-- Outcome of the `requests.post` call inside `_forward_request`:
either a response with a status code and JSON body, or a raised
`requests.RequestException`. -/
inductive TransportResult where
  | ok (status : Nat) (body : JVal) : TransportResult
  | exn (msg : String) : TransportResult

/-- An HTTP response returned to the proxy's caller; `xCache` is the
`X-Cache` header (absent unless explicitly set). -/
structure HttpResponse where
  status : Nat
  body : JVal
  xCache : Option String

/-- What `CacheProxy._forward_request` actually returns: a Flask
`Response` object built from the upstream reply, or — on a
`requests.RequestException` — the view tuple
`(jsonify({"error": str(e)}), 502)`, which is *not* a `Response`
object (despite the function's `-> Response` annotation). -/
inductive ForwardResult where
  | resp (r : HttpResponse) : ForwardResult
  | errTuple (body : JVal) : ForwardResult

/-- `CacheProxy._forward_request`: relay the upstream status and body
as a `Response`, or return the `(jsonify(...), 502)` tuple on a
transport exception.  Neither branch sets an `X-Cache` header. -/
def forward_request (t : TransportResult) : ForwardResult :=
  match t with
  | TransportResult.ok status body => ForwardResult.resp ⟨status, body, none⟩
  | TransportResult.exn msg =>
    ForwardResult.errTuple (JVal.obj [("error", JVal.str msg)])

/-- How Flask renders a view function's return value to the caller: a
`Response` object passes through unchanged, and a `(body, status)`
tuple becomes a response with that status.  This conversion happens
only when the view returns the value directly (the streaming branch);
it does not rescue code that manipulates the tuple itself. -/
def renderForward : ForwardResult → HttpResponse
  | ForwardResult.resp r => r
  | ForwardResult.errTuple body => ⟨502, body, none⟩

/-- Observable interactions of one handler call with the fingerprinter
and the cache store. -/
inductive CacheEvent where
  | fingerprint (key : String) : CacheEvent
  | read (key : String) : CacheEvent
  | write (key : String) : CacheEvent
deriving DecidableEq

/-- Outcome of one `_handle_chat_completion` call: either a response
returned to the caller, or an unhandled Python exception (`raised`),
which Flask surfaces as a generic 500 Internal Server Error.  Both
carry the resulting store state and the cache-event trace. -/
inductive HandlerOutcome where
  | ok (r : HttpResponse) (s : CacheState) (evs : List CacheEvent) :
      HandlerOutcome
  | raised (s : CacheState) (evs : List CacheEvent) : HandlerOutcome

/-- The `X-Cache` header and status of a returned response, or `none`
when the handler raised instead of returning. -/
def HandlerOutcome.headerAndStatus : HandlerOutcome → Option (Option String × Nat)
  | HandlerOutcome.ok r _ _ => some (r.xCache, r.status)
  | HandlerOutcome.raised _ _ => none

/-- `data.get("stream", False)` under Python truthiness. -/
def streamFlag (data : PyDict) : Bool :=
  jtruthy ((jget data "stream").getD (JVal.bool false))

/-- `data.get("messages", [])` coerced to a list of dicts; `none` when
an element is not a dict (the source would raise inside
`normalize_messages`). -/
def getMessages (data : PyDict) : Option (List Msg) :=
  match (jget data "messages").getD (JVal.arr []) with
  | JVal.arr xs => xs.mapM (fun v =>
      match v with
      | JVal.obj fs => some fs
      | _ => none)
  | _ => none

/-- `data.get("model", "unknown")` as a string; `none` when the payload
carries a non-string model (the source would fail downstream). -/
def getModel (data : PyDict) : Option String :=
  match jget data "model" with
  | none => some "unknown"
  | some (JVal.str m) => some m
  | some _ => none

/-- The cache key `_handle_chat_completion` computes for a payload:
`hash_request(messages, model, temperature, max_tokens, tools)`. -/
def requestCacheKey (data : PyDict) : Option String :=
  match getMessages data, getModel data with
  | some messages, some model =>
    some (hash_request messages model
      ((jget data "temperature").getD JVal.null)
      ((jget data "max_tokens").getD JVal.null)
      ((jget data "tools").getD JVal.null) [])
  | _, _ => none

/-- `CacheProxy._handle_chat_completion`: stream requests return the
forwarded result directly (Flask renders a `(body, 502)` tuple as a 502
response there); otherwise look up the fingerprint, serve a `HIT`, or
forward, store on status 200 and serve a `MISS`, or relay an upstream
non-200 `Response`.  When the forward produced the exception tuple, the
`result.status_code == 200` test at proxy.py:127 raises
`AttributeError` on the tuple — the handler `raise`s with the miss
already recorded and nothing written.  A malformed payload (non-dict
message entries, non-string model) likewise raises, inside
`hash_request`, before any cache access. -/
def handle_chat_completion (cfg : CacheConfig) (data : PyDict)
    (s : CacheState) (now : Int) (t : TransportResult) : HandlerOutcome :=
  if streamFlag data then
    HandlerOutcome.ok (renderForward (forward_request t)) s []
  else
    match getMessages data, getModel data with
    | some messages, some model =>
      let cache_key := hash_request messages model
        ((jget data "temperature").getD JVal.null)
        ((jget data "max_tokens").getD JVal.null)
        ((jget data "tools").getD JVal.null) []
      match cacheGet s now cache_key with
      | (some cached, s1) =>
        HandlerOutcome.ok ⟨200, cached, some "HIT"⟩ s1
          [CacheEvent.fingerprint cache_key, CacheEvent.read cache_key]
      | (none, s1) =>
        match forward_request t with
        | ForwardResult.resp result =>
          if result.status == 200 then
            HandlerOutcome.ok ⟨200, result.body, some "MISS"⟩
              (cacheSet cfg s1 now cache_key result.body model)
              [CacheEvent.fingerprint cache_key, CacheEvent.read cache_key,
               CacheEvent.write cache_key]
          else
            HandlerOutcome.ok result s1
              [CacheEvent.fingerprint cache_key, CacheEvent.read cache_key]
        | ForwardResult.errTuple _ =>
          HandlerOutcome.raised s1
            [CacheEvent.fingerprint cache_key, CacheEvent.read cache_key]
    | _, _ => HandlerOutcome.raised s []

/-- Repeated handling of the same payload: each element of `reqs` is the
time and transport outcome of one inbound request (`none` when some
repetition raised). -/
def runRequests (cfg : CacheConfig) (data : PyDict)
    (reqs : List (Int × TransportResult)) (s : CacheState) :
    Option (CacheState × List CacheEvent) :=
  match reqs with
  | [] => some (s, [])
  | (now, t) :: rest =>
    match handle_chat_completion cfg data s now t with
    | HandlerOutcome.ok _ s1 evs =>
      match runRequests cfg data rest s1 with
      | some (s2, evs2) => some (s2, evs ++ evs2)
      | none => none
    | HandlerOutcome.raised _ _ => none

/-- Key uniqueness of a Python dict rendered as an association list. -/
abbrev nodupKeys (l : PyDict) : Prop := (l.map Prod.fst).Nodup

/-- Key uniqueness of the `cache` table (`key TEXT PRIMARY KEY`). -/
abbrev nodupEntryKeys (l : List CacheEntry) : Prop :=
  (l.map CacheEntry.key).Nodup

/-! ## Theorems -/

theorem pairwise_keyLT {l : PyDict} (hs : List.Pairwise keyLE l)
    (hnd : nodupKeys l) : List.Pairwise keyLT l := by
  have hne : List.Pairwise (fun a b : String × JVal => a.1 ≠ b.1) l :=
    List.pairwise_map.mp hnd
  exact (hs.and hne).imp (fun h => lt_of_le_of_ne h.1 h.2)

theorem nodupKeys_of_perm {l1 l2 : PyDict} (h : List.Perm l1 l2)
    (hnd : nodupKeys l1) : nodupKeys l2 :=
  (h.map Prod.fst).nodup hnd

/-- Two dicts whose non-`None` items agree up to order produce the same
sorted-then-filtered parameter list. -/
theorem filter_sortPairs_eq (p : String × JVal → Bool) {l1 l2 : PyDict}
    (hperm : List.Perm (l1.filter p) (l2.filter p)) (hnd : nodupKeys (l1.filter p)) :
    (sortPairs l1).filter p = (sortPairs l2).filter p := by
  have h1 : List.Perm ((sortPairs l1).filter p) (l1.filter p) :=
    (List.perm_insertionSort keyLE l1).filter p
  have h2 : List.Perm ((sortPairs l2).filter p) (l2.filter p) :=
    (List.perm_insertionSort keyLE l2).filter p
  have hp : List.Perm ((sortPairs l1).filter p) ((sortPairs l2).filter p) :=
    h1.trans (hperm.trans h2.symm)
  have hnd1 : nodupKeys ((sortPairs l1).filter p) :=
    nodupKeys_of_perm h1.symm hnd
  have hnd2 : nodupKeys ((sortPairs l2).filter p) :=
    nodupKeys_of_perm hp hnd1
  have hs1 : List.Pairwise keyLE ((sortPairs l1).filter p) :=
    (List.sorted_insertionSort keyLE l1).filter p
  have hs2 : List.Pairwise keyLE ((sortPairs l2).filter p) :=
    (List.sorted_insertionSort keyLE l2).filter p
  exact List.eq_of_perm_of_sorted (r := keyLT) hp
    (pairwise_keyLT hs1 hnd1) (pairwise_keyLT hs2 hnd2)

theorem nodupKeys_filter (p : String × JVal → Bool) {l : PyDict}
    (hnd : nodupKeys l) : nodupKeys (l.filter p) :=
  List.Nodup.sublist ((List.filter_sublist l).map Prod.fst) hnd

/-- C1: `hash_request` yields the same SHA-256 hex digest for any
reordering of the optional keyword parameters, and a keyword parameter
supplied with value `None` leaves the digest exactly as if the
parameter had not been supplied (it is dropped from the canonical
serialization rather than encoded as `null`). -/
theorem hash_request_canonical (messages : List Msg) (model : String)
    (temperature max_tokens tools : JVal) (kw1 kw2 : PyDict) (k : String)
    (hnd : nodupKeys kw1) (hperm : List.Perm kw1 kw2) :
    hash_request messages model temperature max_tokens tools kw1
      = hash_request messages model temperature max_tokens tools kw2
  ∧ hash_request messages model temperature max_tokens tools
      ((k, JVal.null) :: kw1)
      = hash_request messages model temperature max_tokens tools kw1 := by
  constructor
  · have hfe : (sortPairs kw1).filter (fun kv => !kv.2.isNull)
        = (sortPairs kw2).filter (fun kv => !kv.2.isNull) :=
      filter_sortPairs_eq _ (hperm.filter _) (nodupKeys_filter _ hnd)
    simp only [hash_request, hfe]
  · have hfc : ((k, JVal.null) :: kw1).filter (fun kv => !kv.2.isNull)
        = kw1.filter (fun kv => !kv.2.isNull) := by
      simp [List.filter_cons, JVal.isNull]
    have hfe : (sortPairs ((k, JVal.null) :: kw1)).filter
          (fun kv => !kv.2.isNull)
        = (sortPairs kw1).filter (fun kv => !kv.2.isNull) :=
      filter_sortPairs_eq _ (by rw [hfc])
        (by rw [hfc]; exact nodupKeys_filter _ hnd)
    simp only [hash_request, hfe]

/-- Witness for C1 at concrete inputs: two orderings of the keyword set
`seed=42, top_p=1`, and a `None`-valued `stop`. -/
theorem hash_request_canonical_witness :
    hash_request [[("role", JVal.str "user"), ("content", JVal.str "hi")]]
        "gpt-x" JVal.null JVal.null JVal.null
        [("top_p", JVal.num 1), ("seed", JVal.num 42)]
      = hash_request [[("role", JVal.str "user"), ("content", JVal.str "hi")]]
        "gpt-x" JVal.null JVal.null JVal.null
        [("seed", JVal.num 42), ("top_p", JVal.num 1)]
  ∧ hash_request [[("role", JVal.str "user"), ("content", JVal.str "hi")]]
        "gpt-x" JVal.null JVal.null JVal.null
        [("stop", JVal.null), ("top_p", JVal.num 1), ("seed", JVal.num 42)]
      = hash_request [[("role", JVal.str "user"), ("content", JVal.str "hi")]]
        "gpt-x" JVal.null JVal.null JVal.null
        [("top_p", JVal.num 1), ("seed", JVal.num 42)] :=
  ⟨(hash_request_canonical _ _ _ _ _ _ _ "stop"
      (by simp [nodupKeys]) (List.Perm.swap _ _ _)).1,
   (hash_request_canonical _ _ _ _ _ _ _ "stop"
      (by simp [nodupKeys]) (List.Perm.swap _ _ _)).2⟩

/-- C10: a request whose `tools` is the empty list hashes identically to
one with `tools` equal to `None` (or simply not supplied): the
truthiness test `if tools:` drops both from the canonical form. -/
theorem hash_request_empty_tools (messages : List Msg) (model : String)
    (temperature max_tokens : JVal) (kwargs : PyDict) :
    hash_request messages model temperature max_tokens
        (JVal.arr []) kwargs
      = hash_request messages model temperature max_tokens
        JVal.null kwargs := rfl

theorem find?_filter_none {α : Type} (l : List α) (p q : α → Bool)
    (h : ∀ x, q x = true → p x = false) :
    (l.filter p).find? q = none := by
  induction l with
  | nil => rfl
  | cons x l ih =>
    cases hq : q x with
    | true =>
      simp [List.filter_cons, h x hq, ih]
    | false =>
      cases hp : p x with
      | true => simp [List.filter_cons, hp, List.find?_cons, hq, ih]
      | false => simp [List.filter_cons, hp, ih]

theorem find?_filter_keep {α : Type} (l : List α) (p q : α → Bool)
    (h : ∀ x, q x = true → p x = true) :
    (l.filter p).find? q = l.find? q := by
  induction l with
  | nil => rfl
  | cons x l ih =>
    cases hq : q x with
    | true =>
      simp [List.filter_cons, h x hq, List.find?_cons, hq]
    | false =>
      cases hp : p x with
      | true => simp [List.filter_cons, hp, List.find?_cons, hq, ih]
      | false => simp [List.filter_cons, hp, List.find?_cons, hq, ih]

theorem find?_map_keypres {α : Type} (l : List α) (f : α → α) (q : α → Bool)
    (h : ∀ x, q (f x) = q x) :
    (l.map f).find? q = (l.find? q).map f := by
  induction l with
  | nil => rfl
  | cons x l ih =>
    cases hq : q x with
    | true => simp [List.find?_cons, hq, h x]
    | false => simp [List.find?_cons, hq, h x, ih]

theorem findEntry_eraseEntry_self (l : List CacheEntry) (key : String) :
    findEntry (eraseEntry l key) key = none :=
  find?_filter_none l _ _ (fun x hx => by
    simp only [beq_iff_eq] at hx
    simp [bne, hx])

theorem findEntry_eraseEntry_other (l : List CacheEntry) (key k' : String)
    (h : k' ≠ key) : findEntry (eraseEntry l key) k' = findEntry l k' :=
  find?_filter_keep l _ _ (fun x hx => by
    simp only [beq_iff_eq] at hx
    simp [bne, hx, h, Ne.symm h])

theorem touchEntry_key_eq (key : String) (now : Int) (x : CacheEntry) :
    (if x.key == key then
        { x with hit_count := x.hit_count + 1, last_accessed := now }
      else x).key = x.key := by
  by_cases h : x.key == key <;> simp [h]

theorem findEntry_touchEntry_self (l : List CacheEntry) (key : String)
    (now : Int) :
    findEntry (touchEntry l key now) key
      = (findEntry l key).map
          (fun e => { e with hit_count := e.hit_count + 1,
                             last_accessed := now }) := by
  simp only [findEntry, touchEntry]
  rw [find?_map_keypres l _ _ (fun x => by rw [touchEntry_key_eq])]
  cases hf : List.find? (fun e => e.key == key) l with
  | none => rfl
  | some e =>
    have hq := List.find?_some hf
    simp only [beq_iff_eq] at hq
    simp [hq]

theorem findEntry_touchEntry_other (l : List CacheEntry) (key k' : String)
    (now : Int) (h : k' ≠ key) :
    findEntry (touchEntry l key now) k' = findEntry l k' := by
  simp only [findEntry, touchEntry]
  rw [find?_map_keypres l _ _ (fun x => by rw [touchEntry_key_eq])]
  cases hf : List.find? (fun e => e.key == k') l with
  | none => rfl
  | some e =>
    have hq := List.find?_some hf
    simp only [beq_iff_eq] at hq
    have hne : ¬ e.key = key := by rw [hq]; exact h
    simp [hne]

/-- C2: `Cache.get` returns `None` exactly when the key is unstored or
the stored row is expired; an expired row is deleted; a hit increments
the row's `hit_count`, stamps `last_accessed = now`, and bumps the
global `hits` counter by one; a miss bumps the global `misses` counter
by one — each side effect exactly once per call. -/
theorem cacheGet_contract (s : CacheState) (now : Int) (key : String) :
    ((cacheGet s now key).1 = none ↔
       findEntry s.entries key = none
       ∨ ∃ e, findEntry s.entries key = some e ∧ isExpired e now = true)
  ∧ (∀ e, findEntry s.entries key = some e → isExpired e now = true →
       findEntry (cacheGet s now key).2.entries key = none)
  ∧ (∀ v, (cacheGet s now key).1 = some v →
       ∃ e, findEntry s.entries key = some e ∧ v = e.response
         ∧ isExpired e now = false
         ∧ findEntry (cacheGet s now key).2.entries key
             = some { e with hit_count := e.hit_count + 1,
                             last_accessed := now }
         ∧ (cacheGet s now key).2.hits = s.hits + 1
         ∧ (cacheGet s now key).2.misses = s.misses)
  ∧ ((cacheGet s now key).1 = none →
       (cacheGet s now key).2.misses = s.misses + 1
       ∧ (cacheGet s now key).2.hits = s.hits) := by
  rcases hf : findEntry s.entries key with _ | e
  · have hc : cacheGet s now key = (none, { s with misses := s.misses + 1 }) := by
      simp [cacheGet, hf]
    simp [hc, hf]
  · rcases hexp : isExpired e now with _ | _
    · have hc : cacheGet s now key
          = (some e.response,
             { s with entries := touchEntry s.entries key now,
                      hits := s.hits + 1 }) := by
        simp [cacheGet, hf, hexp]
      refine ⟨by simp [hc, hexp], ?_, ?_, ?_⟩
      · intro e' he' hx
        simp only [Option.some.injEq] at he'
        subst he'
        rw [hexp] at hx
        cases hx
      · intro v hv
        rw [hc] at hv
        simp only [Option.some.injEq] at hv
        subst hv
        exact ⟨e, rfl, rfl, hexp, by
          simp [hc, findEntry_touchEntry_self, hf], by simp [hc], by simp [hc]⟩
      · intro hv
        rw [hc] at hv
        cases hv
    · have hc : cacheGet s now key
          = (none, { s with entries := eraseEntry s.entries key,
                            misses := s.misses + 1 }) := by
        simp [cacheGet, hf, hexp]
      refine ⟨by simp [hc, hexp], ?_, ?_, ?_⟩
      · intro e' _ _
        simp [hc, findEntry_eraseEntry_self]
      · intro v hv
        rw [hc] at hv
        cases hv
      · intro _
        simp [hc]

/-- Witness for C2: a hit on a live entry (`hits` 3 → 4, `hit_count`
0 → 1, `last_accessed` refreshed to 5) and a miss on an empty store
(`misses` 0 → 1). -/
theorem cacheGet_contract_witness :
    (∃ e, findEntry (⟨[⟨"k", JVal.str "v", "m", 0, some 10, 0, 0⟩], 3, 4⟩ :
            CacheState).entries "k" = some e
       ∧ JVal.str "v" = e.response
       ∧ isExpired e 5 = false
       ∧ findEntry (cacheGet ⟨[⟨"k", JVal.str "v", "m", 0, some 10, 0, 0⟩],
             3, 4⟩ 5 "k").2.entries "k"
           = some { e with hit_count := e.hit_count + 1, last_accessed := 5 }
       ∧ (cacheGet ⟨[⟨"k", JVal.str "v", "m", 0, some 10, 0, 0⟩],
             3, 4⟩ 5 "k").2.hits = 3 + 1
       ∧ (cacheGet ⟨[⟨"k", JVal.str "v", "m", 0, some 10, 0, 0⟩],
             3, 4⟩ 5 "k").2.misses = 4)
  ∧ ((cacheGet ⟨[], 0, 0⟩ 0 "missing").2.misses = 0 + 1
       ∧ (cacheGet ⟨[], 0, 0⟩ 0 "missing").2.hits = 0) :=
  ⟨(cacheGet_contract ⟨[⟨"k", JVal.str "v", "m", 0, some 10, 0, 0⟩], 3, 4⟩
      5 "k").2.2.1 (JVal.str "v") rfl,
   (cacheGet_contract ⟨[], 0, 0⟩ 0 "missing").2.2.2 rfl⟩

/-- C6: `Cache.clear(older_than)` keeps exactly the entries whose
`created_at` is at least `now` minus the duration (removing the strictly
older ones), `Cache.clear()` removes every entry, and both variants
unconditionally reset the global `hits` and `misses` counters to zero. -/
theorem cacheClear_contract (s : CacheState) (now : Int) (d : Int) :
    (∀ e, e ∈ (cacheClear s now (some d)).entries ↔
       e ∈ s.entries ∧ ¬ (e.created_at < now - d * 86400))
  ∧ (cacheClear s now none).entries = []
  ∧ (cacheClear s now (some d)).hits = 0
  ∧ (cacheClear s now (some d)).misses = 0
  ∧ (cacheClear s now none).hits = 0
  ∧ (cacheClear s now none).misses = 0 := by
  refine ⟨?_, rfl, rfl, rfl, rfl, rfl⟩
  intro e
  simp [cacheClear, List.mem_filter]

theorem find?_filter_keep_mem {α : Type} (l : List α) (p q : α → Bool)
    (h : ∀ x ∈ l, q x = true → p x = true) :
    (l.filter p).find? q = l.find? q := by
  induction l with
  | nil => rfl
  | cons x l ih =>
    have ih' := ih (fun y hy => h y (List.mem_cons_of_mem _ hy))
    cases hq : q x with
    | true =>
      simp [List.filter_cons, h x (List.mem_cons_self _ _) hq,
        List.find?_cons, hq]
    | false =>
      cases hp : p x with
      | true => simp [List.filter_cons, hp, List.find?_cons, hq, ih']
      | false => simp [List.filter_cons, hp, List.find?_cons, hq, ih']

theorem findEntry_append_last (l : List CacheEntry) (a : CacheEntry)
    (h : ∀ x ∈ l, x.key ≠ a.key) :
    findEntry (l ++ [a]) a.key = some a := by
  induction l with
  | nil => simp [findEntry, List.find?_cons]
  | cons x l ih =>
    have hx : ¬ (x.key == a.key) = true := by
      simp only [beq_iff_eq]
      exact h x (List.mem_cons_self _ _)
    have ih' := ih (fun y hy => h y (List.mem_cons_of_mem _ hy))
    simpa [findEntry, List.find?_cons, hx] using ih'

theorem orderedInsert_append_single (x a : CacheEntry) (m : List CacheEntry)
    (hxa : laLE x a) :
    List.orderedInsert laLE x (m ++ [a])
      = List.orderedInsert laLE x m ++ [a] := by
  induction m with
  | nil => simp [List.orderedInsert, hxa]
  | cons y m ih =>
    by_cases hxy : laLE x y
    · simp [List.orderedInsert, hxy]
    · simp [List.orderedInsert, hxy, ih]

/-- Appending a row whose `last_accessed` is maximal leaves it last in
the eviction scan order (the sort is stable, and SQLite's index scan
puts the freshest rowid last among equal timestamps). -/
theorem sortByLA_append_max (l : List CacheEntry) (a : CacheEntry)
    (h : ∀ x ∈ l, x.last_accessed ≤ a.last_accessed) :
    sortByLA (l ++ [a]) = sortByLA l ++ [a] := by
  induction l with
  | nil => simp [sortByLA, List.insertionSort, List.orderedInsert]
  | cons x l ih =>
    have ih' := ih (fun y hy => h y (List.mem_cons_of_mem _ hy))
    have hxa : laLE x a := h x (List.mem_cons_self _ _)
    simp only [sortByLA, List.cons_append, List.insertionSort,
      List.append_eq] at ih' ⊢
    rw [ih', orderedInsert_append_single x a _ hxa]

/-- The fresh row of an `INSERT OR REPLACE` is never evicted: every
other row was accessed no later, so the fresh row sits last in the
eviction order and the scan removes at most `count - m < count` rows. -/
theorem findEntry_evictLRU_last (m : Nat) (hm : 1 ≤ m) (s : CacheState)
    (l : List CacheEntry) (a : CacheEntry)
    (hE : s.entries = l ++ [a])
    (hmono : ∀ x ∈ l, x.last_accessed ≤ a.last_accessed)
    (hkeys : ∀ x ∈ l, x.key ≠ a.key) :
    findEntry (evictLRU m s).entries a.key = some a := by
  by_cases hlen : s.entries.length > m
  · have hsort : sortByLA s.entries = sortByLA l ++ [a] := by
      rw [hE]; exact sortByLA_append_max l a hmono
    have hn : s.entries.length - m ≤ l.length := by
      rw [hE]; simp; omega
    have hnl : s.entries.length - m ≤ (sortByLA l).length := by
      have := (List.perm_insertionSort laLE l).length_eq
      simpa [sortByLA, this] using hn
    have htake : (sortByLA s.entries).take (s.entries.length - m)
        = (sortByLA l).take (s.entries.length - m) := by
      rw [hsort, List.take_append_of_le_length hnl]
    have hvict : a.key ∉
        (((sortByLA s.entries).take (s.entries.length - m)).map (·.key)) := by
      rw [htake]
      intro hmem
      rcases List.mem_map.mp hmem with ⟨y, hy, hyk⟩
      have hyl : y ∈ l :=
        (List.perm_insertionSort laLE l).subset (List.mem_of_mem_take hy)
      exact hkeys y hyl hyk
    have hkeep : findEntry (evictLRU m s).entries a.key
        = findEntry s.entries a.key := by
      simp only [evictLRU, hlen, if_pos]
      exact find?_filter_keep_mem _ _ _ (fun x hx hq => by
        simp only [beq_iff_eq] at hq
        rw [hq]
        simpa using hvict)
    rw [hkeep, hE]
    exact findEntry_append_last l a hkeys
  · simp only [evictLRU, hlen, if_neg, not_false_iff]
    rw [hE]
    exact findEntry_append_last l a hkeys

/-- After `Cache.set`, the stored row for `key` is exactly the fresh
record: `hit_count = 0`, `created_at = last_accessed = now`, and
`expires_at = now + effective TTL` (or absent).  Requires only that no
pre-existing row was accessed in the future of `now`. -/
theorem findEntry_cacheSet_self (cfg : CacheConfig) (s : CacheState)
    (now : Int) (key : String) (v : JVal) (model : String)
    (ttlov : Option Int)
    (hmono : ∀ e ∈ s.entries, e.last_accessed ≤ now) :
    findEntry (cacheSet cfg s now key v model ttlov).entries key
      = some ⟨key, v, model, now,
          (effectiveTTL cfg ttlov).map (fun t => now + t), 0, now⟩ := by
  have hkeys : ∀ x ∈ eraseEntry s.entries key, x.key ≠ key := by
    intro x hx
    have := (List.mem_filter.mp hx).2
    simpa [bne] using this
  have hmono' : ∀ x ∈ eraseEntry s.entries key, x.last_accessed ≤ now :=
    fun x hx => hmono x (List.mem_of_mem_filter hx)
  show findEntry (cacheSet cfg s now key v model ttlov).entries
      (⟨key, v, model, now, (effectiveTTL cfg ttlov).map (fun t => now + t),
        0, now⟩ : CacheEntry).key = _
  unfold cacheSet
  cases hmx : cfg.max_entries with
  | none =>
    exact findEntry_append_last _ _ hkeys
  | some m =>
    cases m with
    | zero => exact findEntry_append_last _ _ hkeys
    | succ m' =>
      exact findEntry_evictLRU_last (m' + 1) (by omega) _ _ _ rfl hmono' hkeys

/-- C3: `set(k, v, m)` followed immediately by `get(k)` returns `v`,
provided no pre-existing row carries a future `last_accessed` (true of
every state the store can reach with monotone wall-clock time) and the
read happens no later than the effective TTL allows. -/
theorem cacheSet_get_roundtrip (cfg : CacheConfig) (s : CacheState)
    (now now2 : Int) (key : String) (v : JVal) (model : String)
    (ttlov : Option Int)
    (hmono : ∀ e ∈ s.entries, e.last_accessed ≤ now)
    (httl : match effectiveTTL cfg ttlov with
            | some t => now2 ≤ now + t
            | none => True) :
    (cacheGet (cacheSet cfg s now key v model ttlov) now2 key).1 = some v := by
  have hf := findEntry_cacheSet_self cfg s now key v model ttlov hmono
  have hexp : isExpired
      ⟨key, v, model, now, (effectiveTTL cfg ttlov).map (fun t => now + t),
        0, now⟩ now2 = false := by
    cases he : effectiveTTL cfg ttlov with
    | none => simp [isExpired, he]
    | some t =>
      rw [he] at httl
      simp only [isExpired, he, Option.map_some']
      simp only [decide_eq_false_iff_not, not_lt]
      exact httl
  simp [cacheGet, hf, hexp]

/-- Witness for C3: a store with a default TTL of 100 and `max_entries`
of 1 holding one older entry; the insertion evicts the old entry, not
the fresh one, and the read at time 50 returns the stored value. -/
theorem cacheSet_get_roundtrip_witness :
    (cacheGet (cacheSet ⟨some 100, some 1⟩
        ⟨[⟨"old", JVal.null, "m", 0, none, 0, 0⟩], 0, 0⟩
        5 "k" (JVal.str "resp") "m" none) 50 "k").1
      = some (JVal.str "resp") :=
  cacheSet_get_roundtrip ⟨some 100, some 1⟩
    ⟨[⟨"old", JVal.null, "m", 0, none, 0, 0⟩], 0, 0⟩
    5 50 "k" (JVal.str "resp") "m" none (by decide) (by simp [effectiveTTL])

/-- C4: `Cache.set` installs a fresh row, whether or not the key was
present: afterwards the row for `key` has `hit_count = 0`,
`created_at = last_accessed = now`, and `expires_at` equal to `now`
plus the per-call TTL override if given, else `now` plus the store's
default TTL, else no expiration at all. -/
theorem cacheSet_fresh_entry (cfg : CacheConfig) (s : CacheState)
    (now : Int) (key : String) (v : JVal) (model : String)
    (ttlov : Option Int)
    (hmono : ∀ e ∈ s.entries, e.last_accessed ≤ now) :
    findEntry (cacheSet cfg s now key v model ttlov).entries key
      = some ⟨key, v, model, now,
          match ttlov with
          | some t => some (now + t)
          | none =>
            match cfg.ttl_seconds with
            | some t => some (now + t)
            | none => none,
          0, now⟩ := by
  rw [findEntry_cacheSet_self cfg s now key v model ttlov hmono]
  cases ttlov with
  | some t => rfl
  | none =>
    cases hc : cfg.ttl_seconds with
    | some t => simp [effectiveTTL, hc]
    | none => simp [effectiveTTL, hc]

/-- Witness for C4: replacing an existing row for `"k"` (which had 7
hits and an old expiry) yields the fresh row with `hit_count = 0`,
timestamps at 20, and expiry from the per-call override 30. -/
theorem cacheSet_fresh_entry_witness :
    findEntry (cacheSet ⟨some 100, none⟩
        ⟨[⟨"k", JVal.null, "m", 1, some 9, 7, 2⟩], 5, 6⟩
        20 "k" (JVal.num 3) "m2" (some 30)).entries "k"
      = some ⟨"k", JVal.num 3, "m2", 20, some (20 + 30), 0, 20⟩ :=
  cacheSet_fresh_entry ⟨some 100, none⟩
    ⟨[⟨"k", JVal.null, "m", 1, some 9, 7, 2⟩], 5, 6⟩
    20 "k" (JVal.num 3) "m2" (some 30) (by decide)

/-- Counterexample to C5 as stated: a store configured with the maximum
entry count 0 still holds 1 entry after an insertion.  The count
exceeds `max_entries`, yet nothing is evicted, because
`if self.max_entries:` is a truthiness test and `0` is falsy — the
claim predicts `count - max_entries = 1` removals leaving 0 entries. -/
theorem lru_eviction_zero_max_counterexample :
    (cacheSet ⟨none, some 0⟩ ⟨[], 0, 0⟩ 0 "A" JVal.null "m" none
      ).entries.length = 1 := rfl

theorem filter_not_mem_take_drop (l : List CacheEntry) (n : Nat)
    (vs : List String)
    (hcov : ∀ x ∈ l.take n, x.key ∈ vs)
    (hout : ∀ x ∈ l.drop n, x.key ∉ vs) :
    l.filter (fun e => !(decide (e.key ∈ vs))) = l.drop n := by
  conv_lhs => rw [← List.take_append_drop n l]
  rw [List.filter_append]
  have h1 : (l.take n).filter (fun e => !(decide (e.key ∈ vs))) = [] := by
    rw [List.filter_eq_nil_iff]
    intro x hx
    simp [hcov x hx]
  have h2 : (l.drop n).filter (fun e => !(decide (e.key ∈ vs)))
      = l.drop n := by
    rw [List.filter_eq_self]
    intro x hx
    simp [hout x hx]
  rw [h1, h2, List.nil_append]

/-- C5 (amended to positive maximum entry counts): `get` never removes
any row other than the queried one; whenever the entry count exceeds
`m`, `_evict_lru` removes exactly `count - m` entries, keeping
precisely the suffix of the ascending-`last_accessed` order (ties
broken deterministically by rowid, i.e. stably); for every store with
`max_entries = m ≥ 1`, `set` is insertion followed by that eviction;
and inserting A, B, C in order into a `max_entries = 2` store leaves
exactly B and C. -/
theorem lru_eviction_amended :
    (∀ (s : CacheState) (now : Int) (key k' : String), k' ≠ key →
       findEntry (cacheGet s now key).2.entries k' = findEntry s.entries k')
  ∧ (∀ (m : Nat) (s : CacheState), nodupEntryKeys s.entries →
       s.entries.length > m →
         List.Perm (evictLRU m s).entries
           ((sortByLA s.entries).drop (s.entries.length - m))
         ∧ (evictLRU m s).entries.length = m)
  ∧ (∀ (cfg : CacheConfig) (s : CacheState) (now : Int) (key : String)
       (v : JVal) (model : String) (ttlov : Option Int) (m : Nat),
       cfg.max_entries = some m → 1 ≤ m →
       cacheSet cfg s now key v model ttlov
         = evictLRU m (insertEntry cfg s now key v model ttlov))
  ∧ (cacheSet ⟨none, some 2⟩ (cacheSet ⟨none, some 2⟩ (cacheSet ⟨none, some 2⟩
        ⟨[], 0, 0⟩ 0 "A" JVal.null "m" none) 1 "B" JVal.null "m" none)
        2 "C" JVal.null "m" none).entries.map (·.key) = ["B", "C"] := by
  refine ⟨?_, ?_, ?_, by decide⟩
  · intro s now key k' hk
    rcases hf : findEntry s.entries key with _ | e
    · simp [cacheGet, hf]
    · rcases hexp : isExpired e now with _ | _
      · simp [cacheGet, hf, hexp, findEntry_touchEntry_other _ _ _ _ hk]
      · simp [cacheGet, hf, hexp, findEntry_eraseEntry_other _ _ _ hk]
  · intro m s hnd hlen
    have hperm0 : List.Perm (evictLRU m s).entries
        ((sortByLA s.entries).filter
          (fun e => !(decide (e.key ∈
            (((sortByLA s.entries).take (s.entries.length - m)).map
              (·.key)))))) := by
      simp only [evictLRU, hlen, if_pos]
      exact (List.perm_insertionSort laLE s.entries).symm.filter _
    have hsplit := List.take_append_drop (s.entries.length - m)
      (sortByLA s.entries)
    have hndS : ((sortByLA s.entries).map CacheEntry.key).Nodup :=
      (((List.perm_insertionSort laLE s.entries).symm).map CacheEntry.key).nodup
        hnd
    have hdisj : List.Disjoint
        (((sortByLA s.entries).take (s.entries.length - m)).map CacheEntry.key)
        (((sortByLA s.entries).drop (s.entries.length - m)).map
          CacheEntry.key) := by
      have : (((sortByLA s.entries).take (s.entries.length - m)).map
            CacheEntry.key ++
          ((sortByLA s.entries).drop (s.entries.length - m)).map
            CacheEntry.key).Nodup := by
        rw [← List.map_append, hsplit]
        exact hndS
      exact (List.nodup_append.mp this).2.2
    have hfilter := filter_not_mem_take_drop (sortByLA s.entries)
      (s.entries.length - m)
      (((sortByLA s.entries).take (s.entries.length - m)).map (·.key))
      (fun x hx => List.mem_map.mpr ⟨x, hx, rfl⟩)
      (fun x hx hmem => hdisj hmem (List.mem_map.mpr ⟨x, hx, rfl⟩))
    have hperm : List.Perm (evictLRU m s).entries
        ((sortByLA s.entries).drop (s.entries.length - m)) := by
      rw [hfilter] at hperm0
      exact hperm0
    refine ⟨hperm, ?_⟩
    rw [hperm.length_eq, List.length_drop]
    have : (sortByLA s.entries).length = s.entries.length :=
      (List.perm_insertionSort laLE s.entries).length_eq
    omega
  · intro cfg s now key v model ttlov m hmx hm
    cases m with
    | zero => omega
    | succ m' => simp only [cacheSet, hmx]

/-- Witness for C5 (amended): a get leaves the untouched key "A" in
place; evicting from a two-entry store with limit 1 leaves 1 entry; and
on a `max_entries = 2` store, `set` equals insert-then-evict. -/
theorem lru_eviction_amended_witness :
    (findEntry (cacheGet ⟨[⟨"A", JVal.null, "m", 0, none, 0, 0⟩], 0, 0⟩
          1 "x").2.entries "A"
       = findEntry [⟨"A", JVal.null, "m", 0, none, 0, 0⟩] "A")
  ∧ ((evictLRU 1 ⟨[⟨"A", JVal.null, "m", 0, none, 0, 0⟩,
        ⟨"B", JVal.null, "m", 1, none, 0, 1⟩], 0, 0⟩).entries.length = 1)
  ∧ (cacheSet ⟨none, some 2⟩ ⟨[], 0, 0⟩ 0 "A" JVal.null "m" none
       = evictLRU 2 (insertEntry ⟨none, some 2⟩ ⟨[], 0, 0⟩ 0 "A"
           JVal.null "m" none)) :=
  ⟨lru_eviction_amended.1 ⟨[⟨"A", JVal.null, "m", 0, none, 0, 0⟩], 0, 0⟩
      1 "x" "A" (by decide),
   (lru_eviction_amended.2.1 1 ⟨[⟨"A", JVal.null, "m", 0, none, 0, 0⟩,
        ⟨"B", JVal.null, "m", 1, none, 0, 1⟩], 0, 0⟩
      (by decide) (by decide)).2,
   lru_eviction_amended.2.2.1 ⟨none, some 2⟩ ⟨[], 0, 0⟩ 0 "A" JVal.null "m"
      none 2 rfl (by decide)⟩

theorem handle_stream (cfg : CacheConfig) (data : PyDict) (s : CacheState)
    (now : Int) (t : TransportResult) (h : streamFlag data = true) :
    handle_chat_completion cfg data s now t
      = HandlerOutcome.ok (renderForward (forward_request t)) s [] := by
  simp [handle_chat_completion, h]

/-- C8: a request whose payload has a truthy `stream` flag is forwarded
to the transport and its result returned as-is (Flask renders the
`(jsonify(...), 502)` tuple as a 502 in this branch), with an empty
cache-event trace (no fingerprinting, no read, no write) and an
unchanged store — and any number of repetitions of such requests still
produces an empty trace and leaves the store untouched. -/
theorem streaming_bypass (cfg : CacheConfig) (data : PyDict) (s : CacheState)
    (now : Int) (t : TransportResult) (hstream : streamFlag data = true) :
    handle_chat_completion cfg data s now t
      = HandlerOutcome.ok (renderForward (forward_request t)) s []
  ∧ ∀ (reqs : List (Int × TransportResult)),
      runRequests cfg data reqs s = some (s, []) := by
  refine ⟨handle_stream cfg data s now t hstream, ?_⟩
  intro reqs
  induction reqs with
  | nil => rfl
  | cons r rest ih =>
    obtain ⟨now', t'⟩ := r
    simp only [runRequests, handle_stream cfg data s now' t' hstream, ih,
      List.nil_append]

/-- Witness for C8: a streaming payload on an empty store, repeated
twice with different transport outcomes (one a transport failure). -/
theorem streaming_bypass_witness :
    handle_chat_completion ⟨none, none⟩ [("stream", JVal.bool true)]
        ⟨[], 0, 0⟩ 0 (TransportResult.ok 200 (JVal.str "chunked"))
      = HandlerOutcome.ok
          (renderForward (forward_request
            (TransportResult.ok 200 (JVal.str "chunked")))) ⟨[], 0, 0⟩ []
  ∧ runRequests ⟨none, none⟩ [("stream", JVal.bool true)]
      [(0, TransportResult.ok 200 (JVal.str "chunked")),
       (1, TransportResult.exn "reset")] ⟨[], 0, 0⟩
      = some (⟨[], 0, 0⟩, []) :=
  ⟨(streaming_bypass ⟨none, none⟩ [("stream", JVal.bool true)] ⟨[], 0, 0⟩ 0
      (TransportResult.ok 200 (JVal.str "chunked")) rfl).1,
   (streaming_bypass ⟨none, none⟩ [("stream", JVal.bool true)] ⟨[], 0, 0⟩ 0
      (TransportResult.ok 200 (JVal.str "chunked")) rfl).2
     [(0, TransportResult.ok 200 (JVal.str "chunked")),
      (1, TransportResult.exn "reset")]⟩

theorem forward_request_xCache (t : TransportResult) :
    (renderForward (forward_request t)).xCache = none := by
  cases t <;> rfl

/-- Counterexample to C7 as stated: a non-streaming request (empty
payload, so `stream` defaults to false) that misses the cache and is
answered upstream with status 500 is relayed to the caller with **no**
`X-Cache` header at all — the handler returns `result` unannotated on
the non-200 path, so not every non-streaming response carries the
cache-status header. -/
theorem xcache_header_counterexample :
    (handle_chat_completion ⟨none, none⟩ [] ⟨[], 0, 0⟩ 0
        (TransportResult.ok 500 (JVal.str "boom"))).headerAndStatus
      = some (none, 500)
  ∧ streamFlag [] = false := ⟨rfl, rfl⟩

/-- C7 (amended): a non-streaming response served from cache carries
`X-Cache: HIT`; a non-streaming response freshly fetched with upstream
status 200 and stored carries `X-Cache: MISS`; a non-streaming response
relaying an upstream non-200 status carries no such header; on a
transport failure the non-streaming handler returns no response at all
— it raises evaluating `result.status_code` on the error tuple, and the
caller gets the framework's generic 500 with no such header; streaming
responses (including the 502 rendered from the error tuple) carry no
such header either. -/
theorem xcache_header_amended (cfg : CacheConfig) (data : PyDict)
    (s : CacheState) (now : Int) (t : TransportResult) :
    (streamFlag data = true →
       handle_chat_completion cfg data s now t
         = HandlerOutcome.ok (renderForward (forward_request t)) s []
       ∧ (renderForward (forward_request t)).xCache = none)
  ∧ (streamFlag data = false → ∀ k, requestCacheKey data = some k →
       ∀ r s' evs, handle_chat_completion cfg data s now t
           = HandlerOutcome.ok r s' evs →
         ((cacheGet s now k).1.isSome = true →
            r.xCache = some "HIT" ∧ r.status = 200)
       ∧ (∀ hr, (cacheGet s now k).1 = none →
            forward_request t = ForwardResult.resp hr → hr.status = 200 →
            r.xCache = some "MISS" ∧ r.status = 200)
       ∧ (∀ hr, (cacheGet s now k).1 = none →
            forward_request t = ForwardResult.resp hr → hr.status ≠ 200 →
            r = hr ∧ r.xCache = none))
  ∧ (streamFlag data = false → ∀ k, requestCacheKey data = some k →
       ∀ body, (cacheGet s now k).1 = none →
         forward_request t = ForwardResult.errTuple body →
         handle_chat_completion cfg data s now t
           = HandlerOutcome.raised (cacheGet s now k).2
               [CacheEvent.fingerprint k, CacheEvent.read k]) := by
  by_cases hs : streamFlag data = true
  · refine ⟨fun _ => ⟨handle_stream cfg data s now t hs,
      forward_request_xCache t⟩, fun hfalse => ?_, fun hfalse => ?_⟩ <;>
    · rw [hs] at hfalse
      cases hfalse
  · have hs' : streamFlag data = false := by
      revert hs; cases streamFlag data <;> simp
    refine ⟨fun htrue => ?_, fun _ k hk r s' evs h => ?_,
      fun _ k hk body hmiss hfw => ?_⟩
    · rw [hs'] at htrue
      cases htrue
    · rw [handle_chat_completion] at h
      rw [hs'] at h
      simp only [Bool.false_eq_true, if_false] at h
      rcases hgm : getMessages data with _ | msgs
      · rw [requestCacheKey, hgm] at hk
        cases hk
      rcases hmm : getModel data with _ | model
      · rw [requestCacheKey, hgm, hmm] at hk
        cases hk
      rw [hgm, hmm] at h
      simp only at h
      rw [requestCacheKey, hgm, hmm] at hk
      simp only [Option.some.injEq] at hk
      subst hk
      rcases hcg : cacheGet s now (hash_request msgs model
          ((jget data "temperature").getD JVal.null)
          ((jget data "max_tokens").getD JVal.null)
          ((jget data "tools").getD JVal.null) []) with ⟨res, s1⟩
      rw [hcg] at h
      cases res with
      | some cached =>
        simp only [HandlerOutcome.ok.injEq] at h
        obtain ⟨hr, _, _⟩ := h
        subst hr
        exact ⟨fun _ => ⟨rfl, rfl⟩,
          fun hr1 hnone _ _ => Option.noConfusion hnone,
          fun hr1 hnone _ _ => Option.noConfusion hnone⟩
      | none =>
        simp only at h
        rcases hfw : forward_request t with hr0 | body0
        · rw [hfw] at h
          simp only at h
          by_cases hst : hr0.status = 200
          · have hbeq : (hr0.status == 200) = true := by simp [hst]
            rw [if_pos hbeq] at h
            simp only [HandlerOutcome.ok.injEq] at h
            obtain ⟨hrr, _, _⟩ := h
            subst hrr
            refine ⟨fun hsome => Bool.noConfusion hsome, ?_, ?_⟩
            · intro hr1 _ hfw1 _
              cases hfw1
              exact ⟨rfl, rfl⟩
            · intro hr1 _ hfw1 hne
              cases hfw1
              exact absurd hst hne
          · have hbeq : ¬ ((hr0.status == 200) = true) := by simp [hst]
            rw [if_neg hbeq] at h
            simp only [HandlerOutcome.ok.injEq] at h
            obtain ⟨hrr, _, _⟩ := h
            subst hrr
            refine ⟨fun hsome => Bool.noConfusion hsome, ?_, ?_⟩
            · intro hr1 _ hfw1 h200
              cases hfw1
              exact absurd h200 hst
            · intro hr1 _ hfw1 _
              cases hfw1
              have hx : hr0.xCache = none := by
                have := forward_request_xCache t
                rw [hfw] at this
                exact this
              exact ⟨rfl, hx⟩
        · rw [hfw] at h
          simp only at h
          exact HandlerOutcome.noConfusion h
    · rw [handle_chat_completion]
      rw [hs']
      simp only [Bool.false_eq_true, if_false]
      rcases hgm : getMessages data with _ | msgs
      · rw [requestCacheKey, hgm] at hk
        cases hk
      rcases hmm : getModel data with _ | model
      · rw [requestCacheKey, hgm, hmm] at hk
        cases hk
      rw [requestCacheKey, hgm, hmm] at hk
      simp only [Option.some.injEq] at hk
      subst hk
      simp only [hgm, hmm]
      rcases hcg : cacheGet s now (hash_request msgs model
          ((jget data "temperature").getD JVal.null)
          ((jget data "max_tokens").getD JVal.null)
          ((jget data "tools").getD JVal.null) []) with ⟨res, s1⟩
      rw [hcg] at hmiss
      simp only at hmiss
      subst hmiss
      simp [hfw]

/-- Witness for C7 (amended): the streaming error tuple carries no
header, and a non-streaming transport failure makes the handler raise
with the miss recorded and nothing written. -/
theorem xcache_header_amended_witness :
    (renderForward (forward_request (TransportResult.exn "down"))).xCache
        = none
  ∧ handle_chat_completion ⟨none, none⟩ [] ⟨[], 0, 0⟩ 0
        (TransportResult.exn "down")
      = HandlerOutcome.raised
          (cacheGet ⟨[], 0, 0⟩ 0 (hash_request [] "unknown"
            JVal.null JVal.null JVal.null [])).2
          [CacheEvent.fingerprint (hash_request [] "unknown"
              JVal.null JVal.null JVal.null []),
           CacheEvent.read (hash_request [] "unknown"
              JVal.null JVal.null JVal.null [])] :=
  ⟨((xcache_header_amended ⟨none, none⟩ [("stream", JVal.bool true)]
      ⟨[], 0, 0⟩ 0 (TransportResult.exn "down")).1 rfl).2,
   (xcache_header_amended ⟨none, none⟩ [] ⟨[], 0, 0⟩ 0
      (TransportResult.exn "down")).2.2 rfl
     (hash_request [] "unknown" JVal.null JVal.null JVal.null []) rfl
     (JVal.obj [("error", JVal.str "down")]) rfl rfl⟩

theorem cacheGet_miss_entries (s : CacheState) (now : Int) (key : String)
    (h : (cacheGet s now key).1 = none) :
    ∀ e ∈ (cacheGet s now key).2.entries, e ∈ s.entries := by
  rcases hf : findEntry s.entries key with _ | e0
  · simp [cacheGet, hf]
  · rcases hexp : isExpired e0 now with _ | _
    · simp [cacheGet, hf, hexp] at h
    · intro e he
      simp only [cacheGet, hf, hexp] at he
      simp only [if_pos] at he
      exact List.mem_of_mem_filter he

/-- Supporting contract for the non-streaming miss path: when the
transport produced a `Response`, the body is stored if and only if its
status is 200, and a non-200 `Response` is relayed verbatim with
nothing written; when the transport raised, the handler raises at the
`result.status_code` check, with the miss recorded and nothing
written. -/
theorem miss_store_contract (cfg : CacheConfig) (data : PyDict)
    (s : CacheState) (now : Int) (t : TransportResult) (r : HttpResponse)
    (s' : CacheState) (evs : List CacheEvent) (k : String) (model : String)
    (hstream : streamFlag data = false)
    (hk : requestCacheKey data = some k)
    (hm : getModel data = some model)
    (hmiss : (cacheGet s now k).1 = none)
    (hmono : ∀ e ∈ s.entries, e.last_accessed ≤ now) :
    (∀ hr, forward_request t = ForwardResult.resp hr →
       handle_chat_completion cfg data s now t = HandlerOutcome.ok r s' evs →
         ((CacheEvent.write k ∈ evs) ↔ hr.status = 200)
       ∧ (hr.status = 200 →
            (∃ e, findEntry s'.entries k = some e
               ∧ e.response = hr.body ∧ e.model = model)
            ∧ r.status = 200 ∧ r.body = hr.body)
       ∧ (hr.status ≠ 200 → r = hr ∧ s' = (cacheGet s now k).2
            ∧ ∀ k', CacheEvent.write k' ∉ evs))
  ∧ (∀ msg, t = TransportResult.exn msg →
       handle_chat_completion cfg data s now t
         = HandlerOutcome.raised (cacheGet s now k).2
             [CacheEvent.fingerprint k, CacheEvent.read k]) := by
  have hsub := cacheGet_miss_entries s now k hmiss
  constructor
  · intro hr hfw h
    rw [handle_chat_completion] at h
    rw [hstream] at h
    simp only [Bool.false_eq_true, if_false] at h
    rcases hgm : getMessages data with _ | msgs
    · rw [requestCacheKey, hgm] at hk
      cases hk
    rw [hgm, hm] at h
    simp only at h
    rw [requestCacheKey, hgm, hm] at hk
    simp only [Option.some.injEq] at hk
    subst hk
    rcases hcg : cacheGet s now (hash_request msgs model
        ((jget data "temperature").getD JVal.null)
        ((jget data "max_tokens").getD JVal.null)
        ((jget data "tools").getD JVal.null) []) with ⟨res, s1⟩
    rw [hcg] at h hmiss hsub
    simp only at hmiss
    subst hmiss
    simp only at h hsub
    have hmono1 : ∀ e ∈ s1.entries, e.last_accessed ≤ now :=
      fun e he => hmono e (hsub e he)
    rw [hfw] at h
    simp only at h
    by_cases hst : hr.status = 200
    · have hbeq : (hr.status == 200) = true := by simp [hst]
      rw [if_pos hbeq] at h
      simp only [HandlerOutcome.ok.injEq] at h
      obtain ⟨hrr, hss, hevs⟩ := h
      subst hrr
      subst hss
      subst hevs
      refine ⟨by simp [hst], fun _ => ?_, fun hne => absurd hst hne⟩
      exact ⟨⟨_, findEntry_cacheSet_self cfg s1 now _ hr.body model none
          hmono1, rfl, rfl⟩, rfl, rfl⟩
    · have hbeq : ¬ ((hr.status == 200) = true) := by simp [hst]
      rw [if_neg hbeq] at h
      simp only [HandlerOutcome.ok.injEq] at h
      obtain ⟨hrr, hss, hevs⟩ := h
      subst hrr
      subst hss
      subst hevs
      exact ⟨by simp [hst], fun h200 => absurd h200 hst,
        fun _ => ⟨rfl, rfl, by simp⟩⟩
  · intro msg htx
    subst htx
    rw [handle_chat_completion]
    rw [hstream]
    simp only [Bool.false_eq_true, if_false]
    rcases hgm : getMessages data with _ | msgs
    · rw [requestCacheKey, hgm] at hk
      cases hk
    rw [requestCacheKey, hgm, hm] at hk
    simp only [Option.some.injEq] at hk
    subst hk
    simp only [hgm, hm]
    rcases hcg : cacheGet s now (hash_request msgs model
        ((jget data "temperature").getD JVal.null)
        ((jget data "max_tokens").getD JVal.null)
        ((jget data "tools").getD JVal.null) []) with ⟨res, s1⟩
    rw [hcg] at hmiss
    simp only at hmiss
    subst hmiss
    simp [forward_request]

/-- C9 at the failing input (divergence witness for the code bug): on a
non-streaming miss with the transport raising, `_forward_request`
returns the `(jsonify(...), 502)` tuple and the handler raises
`AttributeError` evaluating `result.status_code` on it — the outcome is
`raised` (Flask's generic 500, not the claimed 502 gateway response),
with the miss counted and no write event, so nothing was cached. -/
theorem transport_failure_raises :
    handle_chat_completion ⟨none, none⟩ [] ⟨[], 0, 0⟩ 0
        (TransportResult.exn "connection refused")
      = HandlerOutcome.raised ⟨[], 0, 1⟩
          [CacheEvent.fingerprint (hash_request [] "unknown"
              JVal.null JVal.null JVal.null []),
           CacheEvent.read (hash_request [] "unknown"
              JVal.null JVal.null JVal.null [])] := rfl

end LlmCache
